import Mathlib

/-!
# NexoTime backend — verification of the auth / linking / completion core

Shallow embedding of the habit-tracking backend (`main.py`, `database.py`,
`models.py`).  Persistent state (the SQLite tables of `database.py`) is a
record of lists; SQLAlchemy's `query(...).filter(...).first()` becomes
`List.find?`, `.all()` becomes `List.filter`, and a `commit` that would hit a
`UNIQUE` column constraint (`users.telegram_id`, `users.telegram_link_code`,
`users.email`) is modelled as an `integrityError` outcome, since SQLAlchemy
performs no application-level uniqueness check of its own.

An `HTTPException(status_code, detail)` raised by an endpoint becomes the
`.http status detail` error constructor; the happy path returns the endpoint's
value together with the post-commit database state.
-/

namespace NexoTime

/-- `database.py` row of table `habit_logs`. -/
structure HabitLog where
  id : Nat
  userId : Nat
  habitId : Nat
  date : Nat
  completed : Bool
  deriving Repr, DecidableEq

/-- `database.py` row of table `habits`. -/
structure Habit where
  id : Nat
  userId : Nat
  name : String
  icon : String
  active : Bool
  deriving Repr, DecidableEq

/-- `database.py` row of table `users` (`created_at` is irrelevant to the
claims and omitted; `password_hash` is a string as in the source). -/
structure User where
  id : Nat
  email : String
  passwordHash : String
  name : String
  telegramId : Option String
  telegramLinkCode : Option String
  deriving Repr, DecidableEq

/-- The persisted store: the rows of each table in insertion order, plus the
autoincrement counters for the primary keys the claims mention. -/
structure DB where
  users : List User
  habits : List Habit
  logs : List HabitLog
  nextUserId : Nat
  nextLogId : Nat
  deriving Repr, DecidableEq

/-- An endpoint failure: an `HTTPException(status, detail)`, or an
`IntegrityError` escaping from `db.commit()` when a `UNIQUE` column
constraint of `database.py` is violated. -/
inductive ApiError where
  | http (status : Nat) (detail : String)
  | integrityError
  deriving Repr, DecidableEq

/-- `models.py` `HabitLogCreate`: the body of a log request. -/
structure HabitLogCreate where
  habit_id : Nat
  date : Nat
  completed : Bool
  deriving Repr, DecidableEq

/-- The filter `HabitLog.user_id == uid, HabitLog.habit_id == hid,
HabitLog.date == d` used by both log endpoints. -/
def tripleMatch (l : HabitLog) (uid hid d : Nat) : Bool :=
  l.userId == uid && l.habitId == hid && l.date == d

/-- Number of stored records for one `(owner, habit, date)` triple. -/
def countTriple (logs : List HabitLog) (uid hid d : Nat) : Nat :=
  logs.countP (fun l => tripleMatch l uid hid d)

/-- The central ledger invariant: at most one record per triple. -/
def AtMostOnePerTriple (logs : List HabitLog) : Prop :=
  ∀ uid hid d, countTriple logs uid hid d ≤ 1

/-- `existing.completed = data.completed`: overwrite, in place, the completed
flag of the first stored record matching the triple. -/
def setCompletedFirst (uid hid d : Nat) (c : Bool) : List HabitLog → List HabitLog
  | [] => []
  | l :: ls =>
    if tripleMatch l uid hid d then { l with completed := c } :: ls
    else l :: setCompletedFirst uid hid d c ls

/-- `db.query(Habit).filter(Habit.id == hid, Habit.user_id == uid).first()` —
note that `active` is NOT part of the filter. -/
def findHabit (db : DB) (hid uid : Nat) : Option Habit :=
  db.habits.find? (fun h => h.id == hid && h.userId == uid)

/-- `POST /logs` (`log_habit` in `main.py`): upsert of one completion record
for the authenticated user.  Returns the created/updated record. -/
def log_habit (db : DB) (user : User) (data : HabitLogCreate) :
    Except ApiError (DB × HabitLog) :=
  match findHabit db data.habit_id user.id with
  | none => .error (.http 404 "Hábito no encontrado")
  | some _ =>
    match db.logs.find? (fun l => tripleMatch l user.id data.habit_id data.date) with
    | some existing =>
      .ok ({ db with logs := setCompletedFirst user.id data.habit_id data.date
                              data.completed db.logs },
           { existing with completed := data.completed })
    | none =>
      let log : HabitLog :=
        { id := db.nextLogId, userId := user.id, habitId := data.habit_id,
          date := data.date, completed := data.completed }
      .ok ({ db with logs := db.logs ++ [log], nextLogId := db.nextLogId + 1 }, log)

/-- `_get_user_by_telegram` in `main.py`:
`db.query(User).filter(User.telegram_id == telegram_id).first()` or 404. -/
def getUserByTelegram (db : DB) (telegramId : String) : Except ApiError User :=
  match db.users.find? (fun u => u.telegramId == some telegramId) with
  | none => .error (.http 404 "Cuenta no vinculada")
  | some u => .ok u

/-- `POST /telegram/log-habit/{telegram_id}` (`telegram_log_habit`): the bot
surface's upsert; same ledger logic after resolving by `telegram_id`. -/
def telegram_log_habit (db : DB) (telegramId : String) (data : HabitLogCreate) :
    Except ApiError DB :=
  match getUserByTelegram db telegramId with
  | .error e => .error e
  | .ok user =>
    match findHabit db data.habit_id user.id with
    | none => .error (.http 404 "Hábito no encontrado")
    | some _ =>
      match db.logs.find? (fun l => tripleMatch l user.id data.habit_id data.date) with
      | some _ =>
        .ok { db with logs := setCompletedFirst user.id data.habit_id data.date
                               data.completed db.logs }
      | none =>
        let log : HabitLog :=
          { id := db.nextLogId, userId := user.id, habitId := data.habit_id,
            date := data.date, completed := data.completed }
        .ok { db with logs := db.logs ++ [log], nextLogId := db.nextLogId + 1 }

/-! ## Day summaries (both surfaces) -/

/-- Python's `round` applied to the nonnegative fraction `a / b` (`b > 0`):
nearest integer, ties to even (banker's rounding). -/
def roundHalfEvenFrac (a b : Nat) : Nat :=
  let q := a / b
  let r := a % b
  if 2 * r < b then q
  else if b < 2 * r then q + 1
  else if q % 2 = 0 then q else q + 1

/-- `round((completed / total * 100) if total > 0 else 0, 1)` from both
summary endpoints, expressed in tenths of a percent: `round(x, 1)` always
returns a multiple of `0.1`, so the exact value `10 * round(x, 1)` is the
half-even rounding of `completed / total * 1000`.  (The binary-float
representation error of CPython's `round` on non-representable inputs is
outside the model; this is the exact-rational semantics.) -/
def percentageTenths (completed total : Nat) : Nat :=
  if 0 < total then roundHalfEvenFrac (completed * 1000) total else 0

/-- `db.query(Habit).filter(Habit.user_id == uid, Habit.active == True).all()`. -/
def activeHabits (db : DB) (uid : Nat) : List Habit :=
  db.habits.filter (fun h => h.userId == uid && h.active)

/-- `db.query(HabitLog).filter(HabitLog.user_id == uid, HabitLog.date == d).all()`. -/
def dayLogs (db : DB) (uid : Nat) (d : Nat) : List HabitLog :=
  db.logs.filter (fun l => l.userId == uid && l.date == d)

/-- `models.py` `DaySummary`, as returned by `GET /logs/{log_date}`. -/
structure DaySummary where
  date : Nat
  total_habits : Nat
  completed : Nat
  /-- percentage in tenths of a percent (66.7% is `667`) -/
  percentage : Nat
  habits : List HabitLog
  deriving Repr, DecidableEq

/-- `GET /logs/{log_date}` (`get_day_summary`): `completed` counts ALL of the
day's records with `completed`, whatever habit they reference, and `habits`
is the day's record list itself. -/
def get_day_summary (db : DB) (user : User) (log_date : Nat) : DaySummary :=
  let habits := activeHabits db user.id
  let logs := dayLogs db user.id log_date
  let completed := (logs.filter (fun l => l.completed)).length
  let total := habits.length
  { date := log_date, total_habits := total, completed := completed,
    percentage := percentageTenths completed total, habits := logs }

/-- `logs_map = {l.habit_id: l.completed for l in logs}` followed by
`logs_map.get(h.id, False)`: a Python dict comprehension keeps the LAST
binding for a repeated key, hence the search over the reversed list. -/
def logsMapGet (logs : List HabitLog) (hid : Nat) : Bool :=
  match logs.reverse.find? (fun l => l.habitId == hid) with
  | some l => l.completed
  | none => false

/-- The bot-surface summary value returned by
`GET /telegram/summary/{telegram_id}/{log_date}`. -/
structure TelegramSummary where
  date : Nat
  total_habits : Nat
  completed : Nat
  /-- percentage in tenths of a percent (66.7% is `667`) -/
  percentage : Nat
  habits_detail : List (String × Bool)
  deriving Repr, DecidableEq

/-- Body of `get_telegram_summary` once the user is resolved: `completed`
counts the ACTIVE habits whose map entry is true, and `habits_detail` lists
every active habit with its resolved flag. -/
def telegramSummaryFor (db : DB) (user : User) (log_date : Nat) : TelegramSummary :=
  let habits := activeHabits db user.id
  let logs := dayLogs db user.id log_date
  let total := habits.length
  let completed := (habits.filter (fun h => logsMapGet logs h.id)).length
  { date := log_date, total_habits := total, completed := completed,
    percentage := percentageTenths completed total,
    habits_detail := habits.map (fun h => (h.name, logsMapGet logs h.id)) }

/-- `GET /telegram/summary/{telegram_id}/{log_date}` (`get_telegram_summary`). -/
def get_telegram_summary (db : DB) (telegramId : String) (log_date : Nat) :
    Except ApiError TelegramSummary :=
  match getUserByTelegram db telegramId with
  | .error e => .error e
  | .ok user => .ok (telegramSummaryFor db user log_date)

/-- Rendering of the spec's words for `daySummary.completed`: the count of
the owner's active habits having a same-day record with `completed = true`.
Used only to compare the implementation against the spec. -/
def specDayCompleted (db : DB) (uid : Nat) (d : Nat) : Nat :=
  ((activeHabits db uid).filter
    (fun h => (dayLogs db uid d).any (fun l => l.habitId == h.id && l.completed))).length

/-! ## Passwords and JWT tokens

`passlib`'s bcrypt and PyJWT are external libraries; they are modelled by
executable abstractions that keep exactly the properties the endpoints rely
on: hashing is deterministic and verification succeeds precisely on the
matching plaintext, and a token is accepted precisely when its signature was
produced with the server's secret over its own payload and its expiry has not
passed. -/

/-- `SECRET_KEY` fallback value from `main.py`. -/
def SECRET_KEY : String := "nexotime-dev-secret-change-me"

/-- `JWT_EXPIRATION_DAYS = 7`, in seconds. -/
def JWT_EXPIRATION_SECONDS : Nat := 7 * 86400

/-- `pwd_context.hash` (bcrypt), abstracted to an injective tag. -/
def pwd_hash (plaintext : String) : String :=
  "bcrypt$" ++ plaintext

/-- `pwd_context.verify`: true exactly on the digest of the plaintext. -/
def pwd_verify (plaintext digest : String) : Bool :=
  digest == pwd_hash plaintext

/-- A decoded JWT payload.  `sub` abstracts the result of
`int(payload["sub"])`: `none` means the `"sub"` key is absent (Python
`KeyError`), `some none` means it holds a string that is not an integer
(Python `ValueError`), `some (some n)` means it holds `str(n)`. -/
structure JwtPayload where
  sub : Option (Option Nat)
  exp : Nat
  deriving Repr, DecidableEq

/-- The HMAC over the payload, keyed by the secret; any deterministic
injective-in-the-secret encoding serves as the model. -/
def signPayload (secret : String) (p : JwtPayload) : String :=
  secret ++ "|" ++ toString p.exp ++ "|" ++
    (match p.sub with
     | none => "-"
     | some none => "?"
     | some (some n) => toString n)

/-- A presented bearer token: a payload plus the signature it carries.
A tampered or forged token is one whose `sig` is not the server secret's
signature of `payload`. -/
structure JwtToken where
  payload : JwtPayload
  sig : String
  deriving Repr, DecidableEq

/-- `create_token` in `main.py`: `sub = str(user_id)`,
`exp = now + 7 days`, signed with `SECRET_KEY`. -/
def create_token (user_id : Nat) (now : Nat) : JwtToken :=
  let payload : JwtPayload :=
    { sub := some (some user_id), exp := now + JWT_EXPIRATION_SECONDS }
  { payload := payload, sig := signPayload SECRET_KEY payload }

/-- `get_current_user` in `main.py`: `jwt.decode` fails (401) on a bad
signature, an expired `exp`, a missing `"sub"` key or a non-integer `sub`;
an unknown decoded id yields 404 "Usuario no encontrado". -/
def get_current_user (db : DB) (token : JwtToken) (now : Nat) :
    Except ApiError User :=
  if token.sig ≠ signPayload SECRET_KEY token.payload then
    .error (.http 401 "Token inválido o expirado. Haz login de nuevo.")
  else if token.payload.exp < now then
    .error (.http 401 "Token inválido o expirado. Haz login de nuevo.")
  else
    match token.payload.sub with
    | none => .error (.http 401 "Token inválido o expirado. Haz login de nuevo.")
    | some none => .error (.http 401 "Token inválido o expirado. Haz login de nuevo.")
    | some (some user_id) =>
      match db.users.find? (fun u => u.id == user_id) with
      | none => .error (.http 404 "Usuario no encontrado")
      | some u => .ok u

/-- `POST /auth/register` (`register`): duplicate-email check first, then the
minimum password length, then the insert; returns the new state, the issued
token and the created user row. -/
def register (db : DB) (now : Nat) (email password name : String) :
    Except ApiError (DB × JwtToken × User) :=
  if (db.users.find? (fun u => u.email == email)).isSome then
    .error (.http 400 "Ese email ya está registrado")
  else if password.length < 6 then
    .error (.http 400 "La contraseña debe tener al menos 6 caracteres")
  else
    let user : User :=
      { id := db.nextUserId, email := email, passwordHash := pwd_hash password,
        name := name, telegramId := none, telegramLinkCode := none }
    .ok ({ db with users := db.users ++ [user], nextUserId := db.nextUserId + 1 },
         create_token user.id now, user)

/-- `POST /auth/login` (`login`): one generic 401 whether the email is
unknown or the password does not verify. -/
def login (db : DB) (now : Nat) (email password : String) :
    Except ApiError (JwtToken × User) :=
  match db.users.find? (fun u => u.email == email) with
  | none => .error (.http 401 "Email o contraseña incorrectos")
  | some user =>
    if pwd_verify password user.passwordHash then
      .ok (create_token user.id now, user)
    else
      .error (.http 401 "Email o contraseña incorrectos")

/-! ## Telegram linking -/

/-- Executable no-duplicates check, used to model the `UNIQUE` column
constraints that SQLite enforces at commit time. -/
def nodupBool : List String → Bool
  | [] => true
  | x :: xs => !xs.contains x && nodupBool xs

/-- Apply an in-place row mutation to the user row with the given primary
key (primary keys are unique, so at most one row changes). -/
def updateUser (users : List User) (uid : Nat) (f : User → User) : List User :=
  users.map (fun u => if u.id == uid then f u else u)

/-- The `UNIQUE` constraints of `database.py` on `users.telegram_id` and
`users.telegram_link_code` (and `users.email`), checked at commit. -/
def usersUniqueOk (users : List User) : Bool :=
  nodupBool (users.map (fun u => u.email)) &&
  nodupBool (users.filterMap (fun u => u.telegramId)) &&
  nodupBool (users.filterMap (fun u => u.telegramLinkCode))

/-- `POST /telegram/generate-code` (`generate_telegram_link_code`): the
freshly drawn random code is a parameter; it overwrites any previous pending
code of the authenticated user. -/
def generate_telegram_link_code (db : DB) (user : User) (code : String) :
    Except ApiError DB :=
  let users' := updateUser db.users user.id
    (fun v => { v with telegramLinkCode := some code })
  if usersUniqueOk users' then .ok { db with users := users' }
  else .error .integrityError

/-- `POST /telegram/link` (`link_telegram`): find the user whose pending code
matches, 404 otherwise; bind `telegram_id` and clear the code, then commit
(which enforces the `UNIQUE` constraint on `telegram_id`). -/
def link_telegram (db : DB) (telegram_id link_code : String) :
    Except ApiError DB :=
  match db.users.find? (fun u => u.telegramLinkCode == some link_code) with
  | none => .error (.http 404 "Código inválido o expirado")
  | some u =>
    let users' := updateUser db.users u.id
      (fun v => { v with telegramId := some telegram_id, telegramLinkCode := none })
    if usersUniqueOk users' then .ok { db with users := users' }
    else .error .integrityError

/-- Well-formedness of the persisted store: primary keys are unique and below
the autoincrement counters, and the `UNIQUE` columns of `database.py` hold no
duplicates.  Every state reachable through the endpoints satisfies this. -/
structure DBInv (db : DB) : Prop where
  userIdsNodup : (db.users.map User.id).Nodup
  userIdsLt : ∀ u ∈ db.users, u.id < db.nextUserId
  emailsNodup : (db.users.map (fun u => u.email)).Nodup
  telegramIdsNodup : (db.users.filterMap (fun u => u.telegramId)).Nodup
  linkCodesNodup : (db.users.filterMap (fun u => u.telegramLinkCode)).Nodup
  habitIdsNodup : (db.habits.map Habit.id).Nodup

/-! ## Ledger lemmas -/

lemma tripleMatch_setCompleted (l : HabitLog) (c : Bool) (u h d : Nat) :
    tripleMatch { l with completed := c } u h d = tripleMatch l u h d := rfl

lemma countTriple_setCompletedFirst (uid hid d : Nat) (c : Bool) (logs : List HabitLog)
    (u' h' d' : Nat) :
    countTriple (setCompletedFirst uid hid d c logs) u' h' d' = countTriple logs u' h' d' := by
  induction logs with
  | nil => rfl
  | cons l ls ih =>
    by_cases hm : tripleMatch l uid hid d
    · simp only [setCompletedFirst, if_pos hm, countTriple, List.countP_cons,
        tripleMatch_setCompleted]
    · simp only [setCompletedFirst, if_neg hm, countTriple, List.countP_cons]
      simp only [countTriple] at ih
      rw [ih]

lemma countTriple_eq_zero_of_find?_none {logs : List HabitLog} {u h d : Nat}
    (hf : logs.find? (fun l => tripleMatch l u h d) = none) :
    countTriple logs u h d = 0 := by
  rw [countTriple, List.countP_eq_zero]
  exact List.find?_eq_none.mp hf

lemma countTriple_append (logs : List HabitLog) (x : HabitLog) (u h d : Nat) :
    countTriple (logs ++ [x]) u h d =
      countTriple logs u h d + (if tripleMatch x u h d then 1 else 0) := by
  simp [countTriple, List.countP_append, List.countP_cons]

lemma eq_of_countP_le_one {α : Type} {p : α → Bool} {l : List α}
    (hle : l.countP p ≤ 1) {a b : α}
    (ha : a ∈ l) (hpa : p a) (hb : b ∈ l) (hpb : p b) : a = b := by
  induction l with
  | nil => cases ha
  | cons x xs ih =>
    rw [List.countP_cons] at hle
    by_cases hx : p x
    · have h0 : xs.countP p = 0 := by rw [if_pos hx] at hle; omega
      have hnone := List.countP_eq_zero.mp h0
      have ha' : a = x := by
        rcases List.mem_cons.mp ha with h | h
        · exact h
        · exact absurd hpa (hnone a h)
      have hb' : b = x := by
        rcases List.mem_cons.mp hb with h | h
        · exact h
        · exact absurd hpb (hnone b h)
      rw [ha', hb']
    · have ha' : a ∈ xs := by
        rcases List.mem_cons.mp ha with h | h
        · exact absurd (h ▸ hpa) (by simpa using hx)
        · exact h
      have hb' : b ∈ xs := by
        rcases List.mem_cons.mp hb with h | h
        · exact absurd (h ▸ hpb) (by simpa using hx)
        · exact h
      exact ih (by rw [if_neg hx] at hle; omega) ha' hb'

lemma two_le_countP_of_mem {α : Type} {p : α → Bool} {l : List α} {a b : α}
    (ha : a ∈ l) (hb : b ∈ l) (hne : a ≠ b) (hpa : p a) (hpb : p b) :
    2 ≤ l.countP p := by
  induction l with
  | nil => cases ha
  | cons x xs ih =>
    rw [List.countP_cons]
    rcases List.mem_cons.mp ha with rfl | ha'
    · have hb' : b ∈ xs := by
        rcases List.mem_cons.mp hb with h | h
        · exact absurd h.symm hne
        · exact h
      have : 0 < xs.countP p := List.countP_pos_iff.mpr ⟨b, hb', hpb⟩
      rw [if_pos hpa]; omega
    · rcases List.mem_cons.mp hb with rfl | hb'
      · have : 0 < xs.countP p := List.countP_pos_iff.mpr ⟨a, ha', hpa⟩
        rw [if_pos hpb]; omega
      · have := ih ha' hb'
        omega

lemma setCompletedFirst_completed {logs : List HabitLog} {u h d : Nat} {c : Bool}
    (hle : countTriple logs u h d ≤ 1) :
    ∀ l ∈ setCompletedFirst u h d c logs, tripleMatch l u h d → l.completed = c := by
  induction logs with
  | nil => intro l hl; cases hl
  | cons x xs ih =>
    rw [countTriple, List.countP_cons] at hle
    by_cases hx : tripleMatch x u h d
    · rw [setCompletedFirst, if_pos hx]
      have h0 : xs.countP (fun l => tripleMatch l u h d) = 0 := by
        rw [if_pos hx] at hle; omega
      have hnone := List.countP_eq_zero.mp h0
      intro l hl hml
      rcases List.mem_cons.mp hl with rfl | hl'
      · rfl
      · exact absurd hml (hnone l hl')
    · rw [setCompletedFirst, if_neg hx]
      intro l hl hml
      rcases List.mem_cons.mp hl with rfl | hl'
      · exact absurd hml (by simpa using hx)
      · exact ih (by rw [if_neg hx] at hle; rw [countTriple]; omega) l hl' hml

/-- Shape of the state after a successful primary-surface upsert. -/
lemma log_habit_ok_logs {db : DB} {user : User} {data : HabitLogCreate}
    {db' : DB} {r : HabitLog} (hok : log_habit db user data = .ok (db', r)) :
    (db.logs.find? (fun l => tripleMatch l user.id data.habit_id data.date) ≠ none ∧
       db'.logs = setCompletedFirst user.id data.habit_id data.date data.completed db.logs) ∨
    (db.logs.find? (fun l => tripleMatch l user.id data.habit_id data.date) = none ∧
       db'.logs = db.logs ++
         [⟨db.nextLogId, user.id, data.habit_id, data.date, data.completed⟩]) := by
  cases hh : findHabit db data.habit_id user.id with
  | none => simp [log_habit, hh] at hok
  | some hb =>
    cases hf : db.logs.find? (fun l => tripleMatch l user.id data.habit_id data.date) with
    | some ex =>
      left
      simp [log_habit, hh, hf] at hok
      exact ⟨by simp [hf], hok.1 ▸ rfl⟩
    | none =>
      right
      simp [log_habit, hh, hf] at hok
      exact ⟨rfl, hok.1 ▸ rfl⟩

/-- Shape of the state after a successful bot-surface upsert. -/
lemma telegram_log_habit_ok_logs {db : DB} {tid : String} {data : HabitLogCreate}
    {db' : DB} (hok : telegram_log_habit db tid data = .ok db') :
    ∃ user, getUserByTelegram db tid = .ok user ∧
      ((db.logs.find? (fun l => tripleMatch l user.id data.habit_id data.date) ≠ none ∧
         db'.logs = setCompletedFirst user.id data.habit_id data.date data.completed db.logs) ∨
       (db.logs.find? (fun l => tripleMatch l user.id data.habit_id data.date) = none ∧
         db'.logs = db.logs ++
           [⟨db.nextLogId, user.id, data.habit_id, data.date, data.completed⟩])) := by
  cases hu : getUserByTelegram db tid with
  | error e => simp [telegram_log_habit, hu] at hok
  | ok user =>
    refine ⟨user, rfl, ?_⟩
    cases hh : findHabit db data.habit_id user.id with
    | none => simp [telegram_log_habit, hu, hh] at hok
    | some hb =>
      cases hf : db.logs.find? (fun l => tripleMatch l user.id data.habit_id data.date) with
      | some ex =>
        left
        simp [telegram_log_habit, hu, hh, hf] at hok
        exact ⟨by simp [hf], hok ▸ rfl⟩
      | none =>
        right
        simp [telegram_log_habit, hu, hh, hf] at hok
        exact ⟨rfl, hok ▸ rfl⟩

/-- A successful upsert preserves the per-triple uniqueness invariant. -/
lemma upsert_preserves_inv {oldLogs newLogs : List HabitLog} {uid hid d : Nat} {c : Bool}
    {nid : Nat}
    (hinv : AtMostOnePerTriple oldLogs)
    (hshape : (oldLogs.find? (fun l => tripleMatch l uid hid d) ≠ none ∧
        newLogs = setCompletedFirst uid hid d c oldLogs) ∨
      (oldLogs.find? (fun l => tripleMatch l uid hid d) = none ∧
        newLogs = oldLogs ++ [⟨nid, uid, hid, d, c⟩])) :
    AtMostOnePerTriple newLogs := by
  intro u' h' d'
  rcases hshape with ⟨_, rfl⟩ | ⟨hf, rfl⟩
  · rw [countTriple_setCompletedFirst]
    exact hinv u' h' d'
  · rw [countTriple_append]
    by_cases hm : tripleMatch (⟨nid, uid, hid, d, c⟩ : HabitLog) u' h' d'
    · have : u' = uid ∧ h' = hid ∧ d' = d := by
        simp [tripleMatch] at hm
        exact ⟨hm.1.1.symm, hm.1.2.symm, hm.2.symm⟩
      obtain ⟨rfl, rfl, rfl⟩ := this
      rw [countTriple_eq_zero_of_find?_none hf]
      simp [hm]
    · have := hinv u' h' d'
      rw [if_neg hm]
      omega

/-- A successful upsert leaves exactly one record for the written triple. -/
lemma countTriple_after_upsert {oldLogs newLogs : List HabitLog} {uid hid d : Nat}
    {c : Bool} {nid : Nat}
    (hinv : AtMostOnePerTriple oldLogs)
    (hshape : (oldLogs.find? (fun l => tripleMatch l uid hid d) ≠ none ∧
        newLogs = setCompletedFirst uid hid d c oldLogs) ∨
      (oldLogs.find? (fun l => tripleMatch l uid hid d) = none ∧
        newLogs = oldLogs ++ [⟨nid, uid, hid, d, c⟩])) :
    countTriple newLogs uid hid d = 1 := by
  rcases hshape with ⟨hne, rfl⟩ | ⟨hf, rfl⟩
  · rw [countTriple_setCompletedFirst]
    have h1 : 0 < countTriple oldLogs uid hid d := by
      cases hfind : oldLogs.find? (fun l => tripleMatch l uid hid d) with
      | none => exact absurd hfind hne
      | some x =>
        have hx1 : x ∈ oldLogs := List.mem_of_find?_eq_some hfind
        have hx2 := List.find?_some hfind
        exact List.countP_pos_iff.mpr ⟨x, hx1, hx2⟩
    have := hinv uid hid d
    omega
  · rw [countTriple_append, countTriple_eq_zero_of_find?_none hf]
    simp [tripleMatch]

/-- After a successful upsert, every record of the written triple carries the
written flag. -/
lemma completed_after_upsert {oldLogs newLogs : List HabitLog} {uid hid d : Nat}
    {c : Bool} {nid : Nat}
    (hle : countTriple oldLogs uid hid d ≤ 1)
    (hshape : (oldLogs.find? (fun l => tripleMatch l uid hid d) ≠ none ∧
        newLogs = setCompletedFirst uid hid d c oldLogs) ∨
      (oldLogs.find? (fun l => tripleMatch l uid hid d) = none ∧
        newLogs = oldLogs ++ [⟨nid, uid, hid, d, c⟩])) :
    ∀ l ∈ newLogs, tripleMatch l uid hid d → l.completed = c := by
  rcases hshape with ⟨_, rfl⟩ | ⟨hf, rfl⟩
  · exact setCompletedFirst_completed hle
  · intro l hl hm
    rcases List.mem_append.mp hl with h | h
    · exact absurd hm (List.find?_eq_none.mp hf l h)
    · simp only [List.mem_singleton] at h
      subst h
      rfl

/-- C1: for every owner, habit and calendar date, both surfaces' upserts
preserve "at most one CompletionRecord per (owner, habit, date) triple", and
after two upserts of the same triple with different completed values exactly
one record for the triple remains and its flag is the second call's value. -/
theorem upsertCompletion_unique_per_triple :
    (∀ db user data db' r, AtMostOnePerTriple db.logs →
        log_habit db user data = .ok (db', r) → AtMostOnePerTriple db'.logs) ∧
    (∀ db tid data db', AtMostOnePerTriple db.logs →
        telegram_log_habit db tid data = .ok db' → AtMostOnePerTriple db'.logs) ∧
    (∀ db user data₁ data₂ db₁ r₁ db₂ r₂, AtMostOnePerTriple db.logs →
        data₁.habit_id = data₂.habit_id → data₁.date = data₂.date →
        data₁.completed ≠ data₂.completed →
        log_habit db user data₁ = .ok (db₁, r₁) →
        log_habit db₁ user data₂ = .ok (db₂, r₂) →
        countTriple db₂.logs user.id data₂.habit_id data₂.date = 1 ∧
        ∀ l ∈ db₂.logs, tripleMatch l user.id data₂.habit_id data₂.date →
          l.completed = data₂.completed) := by
  refine ⟨?_, ?_, ?_⟩
  · intro db user data db' r hinv hok
    exact upsert_preserves_inv hinv (log_habit_ok_logs hok)
  · intro db tid data db' hinv hok
    obtain ⟨user, _, hshape⟩ := telegram_log_habit_ok_logs hok
    exact upsert_preserves_inv hinv hshape
  · intro db user data₁ data₂ db₁ r₁ db₂ r₂ hinv _ _ _ hok1 hok2
    have hinv1 : AtMostOnePerTriple db₁.logs :=
      upsert_preserves_inv hinv (log_habit_ok_logs hok1)
    have hshape2 := log_habit_ok_logs hok2
    exact ⟨countTriple_after_upsert hinv1 hshape2,
           completed_after_upsert (hinv1 user.id data₂.habit_id data₂.date) hshape2⟩

/-- One registered user owning one active habit, with an empty ledger. -/
def wUser : User :=
  { id := 1, email := "alice@example.com", passwordHash := pwd_hash "secret1",
    name := "Alice", telegramId := some "tel-77", telegramLinkCode := none }

def wHabit : Habit :=
  { id := 1, userId := 1, name := "Leer", icon := "✅", active := true }

def wDB : DB :=
  { users := [wUser], habits := [wHabit], logs := [], nextUserId := 2, nextLogId := 1 }

theorem upsertCompletion_unique_per_triple_witness :
    AtMostOnePerTriple wDB.logs ∧
    (⟨1, 3, true⟩ : HabitLogCreate).completed ≠ (⟨1, 3, false⟩ : HabitLogCreate).completed ∧
    (countTriple ([⟨1, 1, 1, 3, false⟩] : List HabitLog) 1 1 3 = 1 ∧
      ∀ l ∈ ([⟨1, 1, 1, 3, false⟩] : List HabitLog), tripleMatch l 1 1 3 →
        l.completed = false) := by
  have hinv : AtMostOnePerTriple wDB.logs := by
    intro u h d
    simp [wDB, countTriple]
  refine ⟨hinv, by decide, ?_⟩
  exact upsertCompletion_unique_per_triple.2.2 wDB wUser ⟨1, 3, true⟩ ⟨1, 3, false⟩
    { wDB with logs := [⟨1, 1, 1, 3, true⟩], nextLogId := 2 } ⟨1, 1, 1, 3, true⟩
    { wDB with logs := [⟨1, 1, 1, 3, false⟩], nextLogId := 2 } ⟨1, 1, 1, 3, false⟩
    hinv rfl rfl (by decide) rfl rfl

/-- The habit lookup of both log endpoints succeeds exactly when a habit with
that id is owned by the resolved user — the `active` flag plays no part. -/
lemma findHabit_isSome_iff (db : DB) (hid uid : Nat) :
    (findHabit db hid uid).isSome ↔ ∃ h ∈ db.habits, h.id = hid ∧ h.userId = uid := by
  rw [findHabit, List.find?_isSome]
  constructor
  · rintro ⟨h, hmem, hp⟩
    simp only [Bool.and_eq_true, beq_iff_eq] at hp
    exact ⟨h, hmem, hp⟩
  · rintro ⟨h, hmem, h1, h2⟩
    exact ⟨h, hmem, by simp [h1, h2]⟩

/-- C10: completion logging does not require the habit to be active: on both
surfaces the upsert succeeds exactly when the habit exists and is owned by
the resolved account, and the 404 "Hábito no encontrado" outcome occurs
exactly when it does not — the soft-delete flag is never consulted. -/
theorem logging_ignores_soft_delete :
    (∀ db user data,
       ((∃ r, log_habit db user data = .ok r) ↔
         ∃ h ∈ db.habits, h.id = data.habit_id ∧ h.userId = user.id) ∧
       (log_habit db user data = .error (.http 404 "Hábito no encontrado") ↔
         ¬∃ h ∈ db.habits, h.id = data.habit_id ∧ h.userId = user.id)) ∧
    (∀ db tid user data, getUserByTelegram db tid = .ok user →
       (((∃ db', telegram_log_habit db tid data = .ok db') ↔
          ∃ h ∈ db.habits, h.id = data.habit_id ∧ h.userId = user.id) ∧
        (telegram_log_habit db tid data = .error (.http 404 "Hábito no encontrado") ↔
          ¬∃ h ∈ db.habits, h.id = data.habit_id ∧ h.userId = user.id))) := by
  constructor
  · intro db user data
    cases hh : findHabit db data.habit_id user.id with
    | none =>
      have hex : ¬∃ h ∈ db.habits, h.id = data.habit_id ∧ h.userId = user.id := by
        rw [← findHabit_isSome_iff, hh]
        simp
      constructor
      · simp only [log_habit, hh]
        constructor
        · rintro ⟨r, hr⟩; cases hr
        · intro h; exact absurd h hex
      · simp only [log_habit, hh]
        exact ⟨fun _ => hex, fun _ => trivial⟩
    | some hb =>
      have hex : ∃ h ∈ db.habits, h.id = data.habit_id ∧ h.userId = user.id := by
        rw [← findHabit_isSome_iff, hh]; simp
      constructor
      · constructor
        · intro _; exact hex
        · intro _
          cases hf : db.logs.find? (fun l => tripleMatch l user.id data.habit_id data.date) with
          | some ex => exact ⟨_, by simp only [log_habit, hh, hf]; rfl⟩
          | none => exact ⟨_, by simp only [log_habit, hh, hf]; rfl⟩
      · constructor
        · intro herr
          cases hf : db.logs.find? (fun l => tripleMatch l user.id data.habit_id data.date) with
          | some ex => simp [log_habit, hh, hf] at herr
          | none => simp [log_habit, hh, hf] at herr
        · intro h; exact absurd hex h
  · intro db tid user data hu
    cases hh : findHabit db data.habit_id user.id with
    | none =>
      have hex : ¬∃ h ∈ db.habits, h.id = data.habit_id ∧ h.userId = user.id := by
        rw [← findHabit_isSome_iff, hh]
        simp
      constructor
      · simp only [telegram_log_habit, hu, hh]
        constructor
        · rintro ⟨r, hr⟩; cases hr
        · intro h; exact absurd h hex
      · simp only [telegram_log_habit, hu, hh]
        exact ⟨fun _ => hex, fun _ => trivial⟩
    | some hb =>
      have hex : ∃ h ∈ db.habits, h.id = data.habit_id ∧ h.userId = user.id := by
        rw [← findHabit_isSome_iff, hh]; simp
      constructor
      · constructor
        · intro _; exact hex
        · intro _
          cases hf : db.logs.find? (fun l => tripleMatch l user.id data.habit_id data.date) with
          | some ex => exact ⟨_, by simp only [telegram_log_habit, hu, hh, hf]; rfl⟩
          | none => exact ⟨_, by simp only [telegram_log_habit, hu, hh, hf]; rfl⟩
      · constructor
        · intro herr
          cases hf : db.logs.find? (fun l => tripleMatch l user.id data.habit_id data.date) with
          | some ex => simp [telegram_log_habit, hu, hh, hf] at herr
          | none => simp [telegram_log_habit, hu, hh, hf] at herr
        · intro h; exact absurd hex h

/-- A soft-deleted habit: `delete_habit` sets `active := False` and nothing
else, so logging against it still succeeds on both surfaces. -/
def wHabitDeleted : Habit :=
  { id := 2, userId := 1, name := "Correr", icon := "🏃", active := false }

def wDBdel : DB :=
  { users := [wUser], habits := [wHabit, wHabitDeleted], logs := [],
    nextUserId := 2, nextLogId := 1 }

theorem logging_ignores_soft_delete_witness :
    getUserByTelegram wDBdel "tel-77" = .ok wUser ∧
    ((∃ db', telegram_log_habit wDBdel "tel-77" ⟨2, 3, true⟩ = .ok db') ↔
      ∃ h ∈ wDBdel.habits, h.id = 2 ∧ h.userId = wUser.id) ∧
    (∃ h ∈ wDBdel.habits, h.id = 2 ∧ h.userId = wUser.id ∧ h.active = false) := by
  refine ⟨rfl, ?_, ⟨wHabitDeleted, by simp [wDBdel], by simp [wHabitDeleted, wUser]⟩⟩
  exact ((logging_ignores_soft_delete.2 wDBdel "tel-77" wUser ⟨2, 3, true⟩ rfl).1)

/-! ## Authentication -/

/-- C9: every login failure is the one generic 401 outcome — identical status
and identical message — whether the email is unknown or the password wrong. -/
theorem login_failure_indistinguishable :
    (∀ db now email password e, login db now email password = .error e →
        e = .http 401 "Email o contraseña incorrectos") ∧
    (∀ db now email password, (∀ v ∈ db.users, v.email ≠ email) →
        login db now email password =
          .error (.http 401 "Email o contraseña incorrectos")) ∧
    (∀ db now email password u,
        db.users.find? (fun v => v.email == email) = some u →
        pwd_verify password u.passwordHash = false →
        login db now email password =
          .error (.http 401 "Email o contraseña incorrectos")) := by
  refine ⟨?_, ?_, ?_⟩
  · intro db now email password e hok
    cases hf : db.users.find? (fun v => v.email == email) with
    | none =>
      simp [login, hf] at hok
      exact hok.symm
    | some u =>
      by_cases hv : pwd_verify password u.passwordHash
      · simp [login, hf, hv] at hok
      · simp [login, hf, hv] at hok
        exact hok.symm
  · intro db now email password h
    have hf : db.users.find? (fun v => v.email == email) = none :=
      List.find?_eq_none.mpr (fun x hx => by simp [h x hx])
    simp [login, hf]
  · intro db now email password u hf hv
    simp [login, hf, hv]

theorem login_failure_indistinguishable_witness :
    (∀ v ∈ wDB.users, v.email ≠ "bob@example.com") ∧
    login wDB 0 "bob@example.com" "whatever" =
      .error (.http 401 "Email o contraseña incorrectos") := by
  have h : ∀ v ∈ wDB.users, v.email ≠ "bob@example.com" := by decide
  exact ⟨h, login_failure_indistinguishable.2.1 wDB 0 "bob@example.com" "whatever" h⟩

/-- C8: registration rejects a duplicate email and a short password with two
distinct outcomes (both HTTP 400, distinguished by their messages), and with
a fresh email and a password of length ≥ 6 it does not fail. -/
theorem register_failure_modes :
    (∀ db now email password name, (∃ v ∈ db.users, v.email = email) →
        register db now email password name =
          .error (.http 400 "Ese email ya está registrado")) ∧
    (∀ db now email password name, (∀ v ∈ db.users, v.email ≠ email) →
        password.length < 6 →
        register db now email password name =
          .error (.http 400 "La contraseña debe tener al menos 6 caracteres")) ∧
    (ApiError.http 400 "Ese email ya está registrado" ≠
       ApiError.http 400 "La contraseña debe tener al menos 6 caracteres") ∧
    (∀ db now email password name, (∀ v ∈ db.users, v.email ≠ email) →
        6 ≤ password.length →
        ∃ db' tok u, register db now email password name = .ok (db', tok, u)) := by
  refine ⟨?_, ?_, by decide, ?_⟩
  · intro db now email password name ⟨v, hv, he⟩
    have hs : (db.users.find? (fun u => u.email == email)).isSome :=
      List.find?_isSome.mpr ⟨v, hv, by simp [he]⟩
    simp [register, hs]
  · intro db now email password name h hlen
    have hf : db.users.find? (fun u => u.email == email) = none :=
      List.find?_eq_none.mpr (fun x hx => by simp [h x hx])
    simp [register, hf, hlen]
  · intro db now email password name h hlen
    have hf : db.users.find? (fun u => u.email == email) = none :=
      List.find?_eq_none.mpr (fun x hx => by simp [h x hx])
    refine ⟨{ db with
        users := db.users ++ [⟨db.nextUserId, email, pwd_hash password, name, none, none⟩],
        nextUserId := db.nextUserId + 1 },
      create_token db.nextUserId now,
      ⟨db.nextUserId, email, pwd_hash password, name, none, none⟩, ?_⟩
    simp only [register, hf, Option.isSome_none, Bool.false_eq_true, if_false]
    rw [if_neg (by omega)]

/-- An empty store, as after `init_db` on a fresh file. -/
def noUserDB : DB :=
  { users := [], habits := [], logs := [], nextUserId := 1, nextLogId := 1 }

theorem register_failure_modes_witness :
    (∀ v ∈ noUserDB.users, v.email ≠ "alice@example.com") ∧
    (6 ≤ ("secret1" : String).length) ∧
    ∃ db' tok u, register noUserDB 0 "alice@example.com" "secret1" "Alice" =
      .ok (db', tok, u) := by
  have h : ∀ v ∈ noUserDB.users, v.email ≠ "alice@example.com" := by decide
  have hlen : 6 ≤ ("secret1" : String).length := by decide
  exact ⟨h, hlen,
    register_failure_modes.2.2.2 noUserDB 0 "alice@example.com" "secret1" "Alice" h hlen⟩

/-- A token freshly issued by `create_token` resolves through `jwt.decode`
whenever the check time is at or before its embedded expiry. -/
lemma get_current_user_create_token (db : DB) (uid now t : Nat)
    (hexp : t ≤ now + JWT_EXPIRATION_SECONDS) :
    get_current_user db (create_token uid now) t =
      match db.users.find? (fun u => u.id == uid) with
      | none => .error (.http 404 "Usuario no encontrado")
      | some u => .ok u := by
  have h1 : ¬((create_token uid now).sig ≠
      signPayload SECRET_KEY (create_token uid now).payload) := by
    simp [create_token]
  have h2 : ¬((create_token uid now).payload.exp < t) := by
    show ¬(now + JWT_EXPIRATION_SECONDS < t)
    omega
  rw [get_current_user, if_neg h1, if_neg h2]
  rfl

/-- C7: after a successful registration, logging in with the same email and
password succeeds for the same account, and both the registration's and the
login's tokens resolve back to that account any time up to their embedded
expiry. -/
theorem register_login_token_roundtrip :
    ∀ db now now₂ email password name db₁ tok u,
      (∀ v ∈ db.users, v.id < db.nextUserId) →
      register db now email password name = .ok (db₁, tok, u) →
      login db₁ now₂ email password = .ok (create_token u.id now₂, u) ∧
      (∀ t, t ≤ tok.payload.exp → get_current_user db₁ tok t = .ok u) ∧
      (∀ t, t ≤ now₂ + JWT_EXPIRATION_SECONDS →
        get_current_user db₁ (create_token u.id now₂) t = .ok u) := by
  intro db now now₂ email password name db₁ tok u hlt hok
  by_cases h1 : (db.users.find? (fun v => v.email == email)).isSome
  · simp [register, h1] at hok
  · by_cases h2 : password.length < 6
    · simp [register, h1, h2] at hok
    · simp only [register, h1, Bool.false_eq_true, if_false, if_neg h2,
        Except.ok.injEq, Prod.mk.injEq] at hok
      obtain ⟨rfl, rfl, rfl⟩ := hok
      have hfnone : db.users.find? (fun v => v.email == email) = none := by
        cases hf : db.users.find? (fun v => v.email == email) with
        | none => rfl
        | some x => rw [hf] at h1; simp at h1
      have hfind : (db.users ++
          [({ id := db.nextUserId, email := email, passwordHash := pwd_hash password,
              name := name, telegramId := none, telegramLinkCode := none } : User)]).find?
            (fun v => v.email == email) =
          some { id := db.nextUserId, email := email, passwordHash := pwd_hash password,
                 name := name, telegramId := none, telegramLinkCode := none } := by
        rw [List.find?_append, hfnone]
        simp
      have hidnone : db.users.find? (fun v => v.id == db.nextUserId) = none :=
        List.find?_eq_none.mpr (fun x hx => by
          have := hlt x hx
          simp
          omega)
      have hidfind : (db.users ++
          [({ id := db.nextUserId, email := email, passwordHash := pwd_hash password,
              name := name, telegramId := none, telegramLinkCode := none } : User)]).find?
            (fun v => v.id == db.nextUserId) =
          some { id := db.nextUserId, email := email, passwordHash := pwd_hash password,
                 name := name, telegramId := none, telegramLinkCode := none } := by
        rw [List.find?_append, hidnone]
        simp
      refine ⟨?_, ?_, ?_⟩
      · simp [login, hfind, pwd_verify]
      · intro t ht
        rw [get_current_user_create_token _ _ _ _ ht]
        simp [hidfind]
      · intro t ht
        rw [get_current_user_create_token _ _ _ _ ht]
        simp [hidfind]

def regUser : User :=
  { id := 1, email := "alice@example.com", passwordHash := pwd_hash "secret1",
    name := "Alice", telegramId := none, telegramLinkCode := none }

def regDB : DB :=
  { users := [regUser], habits := [], logs := [], nextUserId := 2, nextLogId := 1 }

theorem register_login_token_roundtrip_witness :
    (∀ v ∈ noUserDB.users, v.id < noUserDB.nextUserId) ∧
    login regDB 5 "alice@example.com" "secret1" = .ok (create_token 1 5, regUser) := by
  have h : ∀ v ∈ noUserDB.users, v.id < noUserDB.nextUserId := by decide
  exact ⟨h, (register_login_token_roundtrip noUserDB 0 5 "alice@example.com" "secret1"
    "Alice" regDB (create_token 1 0) regUser h rfl).1⟩

/-- C6 (as written, refuted): a validly signed, unexpired token whose decoded
account id matches no stored account is rejected with HTTP 404, not with the
401 Unauthorized outcome the claim requires. -/
theorem bearer_unknown_id_counterexample :
    get_current_user noUserDB (create_token 1 0) 0 =
      .error (.http 404 "Usuario no encontrado") ∧
    ApiError.http 404 "Usuario no encontrado" ≠
      ApiError.http 401 "Token inválido o expirado. Haz login de nuevo." :=
  ⟨rfl, by decide⟩

/-- C6 (amended): a tampered signature, a passed expiry, a missing `"sub"`
key or a non-integer `sub` all resolve to the same 401; a validly decoded but
unknown account id resolves to 404 "Usuario no encontrado"; and a successful
resolution only ever returns a stored account whose id the server itself
signed into the unexpired token. -/
theorem bearer_resolution_failure_modes :
    (∀ db token now, token.sig ≠ signPayload SECRET_KEY token.payload →
        get_current_user db token now =
          .error (.http 401 "Token inválido o expirado. Haz login de nuevo.")) ∧
    (∀ db token now, token.payload.exp < now →
        get_current_user db token now =
          .error (.http 401 "Token inválido o expirado. Haz login de nuevo.")) ∧
    (∀ db token now, token.payload.sub = none →
        get_current_user db token now =
          .error (.http 401 "Token inválido o expirado. Haz login de nuevo.")) ∧
    (∀ db token now, token.payload.sub = some none →
        get_current_user db token now =
          .error (.http 401 "Token inválido o expirado. Haz login de nuevo.")) ∧
    (∀ db token now uid, token.sig = signPayload SECRET_KEY token.payload →
        ¬(token.payload.exp < now) → token.payload.sub = some (some uid) →
        db.users.find? (fun u => u.id == uid) = none →
        get_current_user db token now =
          .error (.http 404 "Usuario no encontrado")) ∧
    (∀ db token now u, get_current_user db token now = .ok u →
        token.sig = signPayload SECRET_KEY token.payload ∧
        ¬(token.payload.exp < now) ∧
        token.payload.sub = some (some u.id) ∧ u ∈ db.users) := by
  refine ⟨?_, ?_, ?_, ?_, ?_, ?_⟩
  · intro db token now hsig
    rw [get_current_user, if_pos hsig]
  · intro db token now hexp
    by_cases hsig : token.sig ≠ signPayload SECRET_KEY token.payload
    · rw [get_current_user, if_pos hsig]
    · rw [get_current_user, if_neg hsig, if_pos hexp]
  · intro db token now hsub
    by_cases hsig : token.sig ≠ signPayload SECRET_KEY token.payload
    · rw [get_current_user, if_pos hsig]
    · by_cases hexp : token.payload.exp < now
      · rw [get_current_user, if_neg hsig, if_pos hexp]
      · rw [get_current_user, if_neg hsig, if_neg hexp, hsub]
  · intro db token now hsub
    by_cases hsig : token.sig ≠ signPayload SECRET_KEY token.payload
    · rw [get_current_user, if_pos hsig]
    · by_cases hexp : token.payload.exp < now
      · rw [get_current_user, if_neg hsig, if_pos hexp]
      · rw [get_current_user, if_neg hsig, if_neg hexp, hsub]
  · intro db token now uid hsig hexp hsub hfind
    rw [get_current_user, if_neg (by simp [hsig]), if_neg hexp, hsub]
    simp [hfind]
  · intro db token now u hok
    rw [get_current_user] at hok
    by_cases hsig : token.sig ≠ signPayload SECRET_KEY token.payload
    · rw [if_pos hsig] at hok; cases hok
    · rw [if_neg hsig] at hok
      by_cases hexp : token.payload.exp < now
      · rw [if_pos hexp] at hok; cases hok
      · rw [if_neg hexp] at hok
        cases hsub : token.payload.sub with
        | none => rw [hsub] at hok; cases hok
        | some s =>
          cases s with
          | none => rw [hsub] at hok; cases hok
          | some uid =>
            simp only [hsub] at hok
            cases hfind : db.users.find? (fun v => v.id == uid) with
            | none => simp only [hfind] at hok; cases hok
            | some v =>
              simp only [hfind] at hok
              cases hok
              have hv := List.find?_some hfind
              simp only [beq_iff_eq] at hv
              refine ⟨not_not.mp hsig, hexp, ?_, List.mem_of_find?_eq_some hfind⟩
              rw [hv]

theorem bearer_resolution_failure_modes_witness :
    ((create_token 1 0).payload.exp < 999999999) ∧
    get_current_user wDB (create_token 1 0) 999999999 =
      .error (.http 401 "Token inválido o expirado. Haz login de nuevo.") := by
  have h : (create_token 1 0).payload.exp < 999999999 := by decide
  exact ⟨h, bearer_resolution_failure_modes.2.1 wDB (create_token 1 0) 999999999 h⟩

/-! ## Linking lemmas -/

lemma nodupBool_iff (l : List String) : nodupBool l = true ↔ l.Nodup := by
  induction l with
  | nil => simp [nodupBool]
  | cons x xs ih =>
    rw [nodupBool, List.nodup_cons, Bool.and_eq_true, Bool.not_eq_true', ← ih]
    constructor
    · rintro ⟨h1, h2⟩
      refine ⟨fun hmem => ?_, h2⟩
      have he : xs.elem x = true := List.elem_iff.mpr hmem
      simp only [List.contains] at h1
      rw [he] at h1
      cases h1
    · rintro ⟨h1, h2⟩
      refine ⟨?_, h2⟩
      rw [List.contains]
      cases he : xs.elem x with
      | false => rfl
      | true => exact absurd (List.elem_iff.mp he) h1

/-- Counting the rows whose optional column holds `some t` is counting `t` in
the column's `filterMap` projection. -/
lemma countP_eq_count_filterMap (f : User → Option String) (t : String)
    (l : List User) :
    l.countP (fun u => f u == some t) = (l.filterMap f).count t := by
  induction l with
  | nil => rfl
  | cons x xs ih =>
    rw [List.countP_cons]
    cases hx : f x with
    | none => simp [List.filterMap_cons, hx, ih]
    | some s =>
      by_cases hs : s = t
      · subst hs
        simp [List.filterMap_cons, hx, List.count_cons, ih]
      · simp [List.filterMap_cons, hx, List.count_cons, ih, hs, Ne.symm hs]

lemma countP_le_one_of_column_nodup {f : User → Option String} {l : List User}
    (h : (l.filterMap f).Nodup) (t : String) :
    l.countP (fun u => f u == some t) ≤ 1 := by
  rw [countP_eq_count_filterMap]
  exact List.nodup_iff_count_le_one.mp h t

lemma mem_updateUser_self {users : List User} {u : User} {f : User → User}
    (hu : u ∈ users) : f u ∈ updateUser users u.id f := by
  exact List.mem_map.mpr ⟨u, hu, by simp⟩

lemma mem_updateUser_other {users : List User} {uid : Nat} {v : User} {f : User → User}
    (hv : v ∈ users) (hne : v.id ≠ uid) : v ∈ updateUser users uid f := by
  refine List.mem_map.mpr ⟨v, hv, ?_⟩
  have : (v.id == uid) = false := by simp [hne]
  simp [this]

/-- Elements of the updated table: each row is either an untouched original
row with a different primary key, or the image of an original row keyed
`uid`. -/
lemma mem_updateUser_elim {users : List User} {uid : Nat} {f : User → User} {w : User}
    (hw : w ∈ updateUser users uid f) :
    (∃ v ∈ users, v.id = uid ∧ w = f v) ∨ (∃ v ∈ users, v.id ≠ uid ∧ w = v) := by
  obtain ⟨v, hv, he⟩ := List.mem_map.mp hw
  by_cases hid : v.id = uid
  · left
    refine ⟨v, hv, hid, ?_⟩
    rw [← he]
    simp [hid]
  · right
    refine ⟨v, hv, hid, ?_⟩
    rw [← he]
    have : (v.id == uid) = false := by simp [hid]
    simp [this]

/-- Decomposition of a successful `POST /telegram/link`. -/
lemma link_telegram_ok {db : DB} {tid code : String} {db' : DB}
    (hok : link_telegram db tid code = .ok db') :
    ∃ u, db.users.find? (fun v => v.telegramLinkCode == some code) = some u ∧
      db'.users = updateUser db.users u.id
        (fun v => { v with telegramId := some tid, telegramLinkCode := none }) ∧
      usersUniqueOk db'.users = true := by
  cases hf : db.users.find? (fun v => v.telegramLinkCode == some code) with
  | none => simp [link_telegram, hf] at hok
  | some u =>
    by_cases hu : usersUniqueOk (updateUser db.users u.id
        (fun v => { v with telegramId := some tid, telegramLinkCode := none }))
    · simp only [link_telegram, hf, hu, if_true, Except.ok.injEq] at hok
      exact ⟨u, rfl, by rw [← hok], by rw [← hok]; exact hu⟩
    · simp only [link_telegram, hf, Bool.not_eq_true] at hok
      rw [if_neg hu] at hok
      cases hok

/-- C4: redemption fails with 404 "Código inválido o expirado" exactly when
no stored account holds the presented code as its pending link code; a
successful redemption binds the secondary id to the matching account, clears
its pending code, and makes any second redemption of the same code fail with
404; and issuing a fresh (different) code makes the superseded code fail
with 404 as well. -/
theorem redeemCode_not_found_iff :
    (∀ db tid code,
        (link_telegram db tid code =
          .error (.http 404 "Código inválido o expirado")) ↔
        ∀ v ∈ db.users, v.telegramLinkCode ≠ some code) ∧
    (∀ db tid code db',
        (db.users.filterMap (fun v => v.telegramLinkCode)).Nodup →
        link_telegram db tid code = .ok db' →
        (∃ u, db.users.find? (fun v => v.telegramLinkCode == some code) = some u ∧
           getUserByTelegram db' tid =
             .ok { u with telegramId := some tid, telegramLinkCode := none }) ∧
        (∀ tid', link_telegram db' tid' code =
           .error (.http 404 "Código inválido o expirado"))) ∧
    (∀ db user newCode oldCode tid db₁,
        (db.users.filterMap (fun v => v.telegramLinkCode)).Nodup →
        user ∈ db.users → user.telegramLinkCode = some oldCode →
        newCode ≠ oldCode →
        generate_telegram_link_code db user newCode = .ok db₁ →
        link_telegram db₁ tid oldCode =
          .error (.http 404 "Código inválido o expirado")) := by
  refine ⟨?_, ?_, ?_⟩
  · intro db tid code
    cases hf : db.users.find? (fun v => v.telegramLinkCode == some code) with
    | none =>
      simp only [link_telegram, hf]
      constructor
      · intro _ v hv
        have := List.find?_eq_none.mp hf v hv
        simpa using this
      · intro _; trivial
    | some u =>
      constructor
      · intro herr
        by_cases hu : usersUniqueOk (updateUser db.users u.id
            (fun v => { v with telegramId := some tid, telegramLinkCode := none }))
        · simp only [link_telegram, hf, hu, if_true] at herr
          cases herr
        · simp only [link_telegram, hf, Bool.not_eq_true] at herr
          rw [if_neg hu] at herr
          cases herr
      · intro hall
        have hu := List.find?_some hf
        simp only [beq_iff_eq] at hu
        exact absurd hu (hall u (List.mem_of_find?_eq_some hf))
  · intro db tid code db' hnodup hok
    obtain ⟨u, hf, husers, huniq⟩ := link_telegram_ok hok
    have humem : u ∈ db.users := List.mem_of_find?_eq_some hf
    have hucode : u.telegramLinkCode = some code := by
      have := List.find?_some hf
      simpa using this
    have hcleared : ∀ v ∈ db'.users, v.telegramLinkCode ≠ some code := by
      intro w hw
      rw [husers] at hw
      rcases mem_updateUser_elim hw with ⟨v, _, _, hfv⟩ | ⟨v, hv, hne, hveq⟩
      · rw [hfv]; simp
      · rw [hveq]
        intro hcode
        have hvne : v ≠ u := fun h => hne (h ▸ rfl)
        have h2 : 2 ≤ db.users.countP (fun x => x.telegramLinkCode == some code) :=
          two_le_countP_of_mem hv humem hvne (by simp [hcode]) (by simp [hucode])
        have h1 := countP_le_one_of_column_nodup hnodup code
        omega
    constructor
    · refine ⟨u, hf, ?_⟩
      have htidsnodup : (db'.users.filterMap (fun v => v.telegramId)).Nodup := by
        rw [usersUniqueOk, Bool.and_eq_true, Bool.and_eq_true] at huniq
        exact (nodupBool_iff _).mp huniq.1.2
      have hle := countP_le_one_of_column_nodup htidsnodup tid
      have hfu : ({ u with telegramId := some tid, telegramLinkCode := none } : User)
          ∈ db'.users := by
        rw [husers]
        exact mem_updateUser_self humem
      have hsome : (db'.users.find? (fun v => v.telegramId == some tid)).isSome :=
        List.find?_isSome.mpr ⟨_, hfu, by simp⟩
      obtain ⟨w, hw⟩ := Option.isSome_iff_exists.mp hsome
      have hwmem : w ∈ db'.users := List.mem_of_find?_eq_some hw
      have hwp := List.find?_some hw
      have hweq : w = { u with telegramId := some tid, telegramLinkCode := none } :=
        eq_of_countP_le_one hle hwmem hwp hfu (by simp)
      rw [getUserByTelegram, hw, hweq]
    · intro tid'
      have hnone : db'.users.find? (fun v => v.telegramLinkCode == some code) = none :=
        List.find?_eq_none.mpr (fun v hv => by simp [hcleared v hv])
      simp [link_telegram, hnone]
  · intro db user newCode oldCode tid db₁ hnodup humem hucode hne hok
    have husers : db₁.users = updateUser db.users user.id
        (fun v => { v with telegramLinkCode := some newCode }) := by
      by_cases hu : usersUniqueOk (updateUser db.users user.id
          (fun v => { v with telegramLinkCode := some newCode }))
      · simp only [generate_telegram_link_code, hu, if_true, Except.ok.injEq] at hok
        rw [← hok]
      · simp only [generate_telegram_link_code, Bool.not_eq_true] at hok
        rw [if_neg hu] at hok
        cases hok
    have hgone : ∀ v ∈ db₁.users, v.telegramLinkCode ≠ some oldCode := by
      intro w hw
      rw [husers] at hw
      rcases mem_updateUser_elim hw with ⟨v, _, _, hfv⟩ | ⟨v, hv, hvne, hveq⟩
      · rw [hfv]; simp [hne]
      · rw [hveq]
        intro hcode
        have hvneu : v ≠ user := fun h => hvne (h ▸ rfl)
        have h2 : 2 ≤ db.users.countP (fun x => x.telegramLinkCode == some oldCode) :=
          two_le_countP_of_mem hv humem hvneu (by simp [hcode]) (by simp [hucode])
        have h1 := countP_le_one_of_column_nodup hnodup oldCode
        omega
    have hnone : db₁.users.find? (fun v => v.telegramLinkCode == some oldCode) = none :=
      List.find?_eq_none.mpr (fun v hv => by simp [hgone v hv])
    simp [link_telegram, hnone]

/-- A user bound to a chat id, next to a user holding a pending link code. -/
def boundUser : User :=
  { id := 1, email := "ana@example.com", passwordHash := pwd_hash "secret1",
    name := "Ana", telegramId := some "tg-1", telegramLinkCode := none }

def pendingUser : User :=
  { id := 2, email := "bea@example.com", passwordHash := pwd_hash "secret2",
    name := "Bea", telegramId := none, telegramLinkCode := some "A7X9K2" }

def linkDB : DB :=
  { users := [boundUser, pendingUser], habits := [], logs := [],
    nextUserId := 3, nextLogId := 1 }

theorem redeemCode_not_found_iff_witness :
    (linkDB.users.filterMap (fun v => v.telegramLinkCode)).Nodup ∧
    link_telegram linkDB "tg-9" "A7X9K2" =
      .ok { linkDB with users := [boundUser,
        { pendingUser with telegramId := some "tg-9", telegramLinkCode := none }] } ∧
    (∀ tid', link_telegram { linkDB with users := [boundUser,
        { pendingUser with telegramId := some "tg-9", telegramLinkCode := none }] }
        tid' "A7X9K2" = .error (.http 404 "Código inválido o expirado")) := by
  have hnodup : (linkDB.users.filterMap (fun v => v.telegramLinkCode)).Nodup := by decide
  have hok : link_telegram linkDB "tg-9" "A7X9K2" =
      .ok { linkDB with users := [boundUser,
        { pendingUser with telegramId := some "tg-9", telegramLinkCode := none }] } := rfl
  exact ⟨hnodup, hok,
    (redeemCode_not_found_iff.2.1 linkDB "tg-9" "A7X9K2" _ hnodup hok).2⟩

/-- C5 (as written, refuted): redeeming a valid code from a secondary id that
is already bound to a different account does NOT succeed — the `UNIQUE`
constraint on `users.telegram_id` rejects the commit with an IntegrityError. -/
theorem rebind_overwrite_counterexample :
    getUserByTelegram linkDB "tg-1" = .ok boundUser ∧
    pendingUser.telegramLinkCode = some "A7X9K2" ∧
    link_telegram linkDB "tg-1" "A7X9K2" = .error .integrityError :=
  ⟨rfl, rfl, rfl⟩

/-- C5 (amended): when the presented secondary id is already bound to a
different account, redemption of a valid pending code fails with the
IntegrityError of the `UNIQUE` column constraint instead of succeeding, and
no state is committed. -/
theorem rebind_hits_unique_constraint :
    ∀ db tid code u v,
      db.users.find? (fun w => w.telegramLinkCode == some code) = some u →
      v ∈ db.users → v.telegramId = some tid → v.id ≠ u.id →
      link_telegram db tid code = .error .integrityError := by
  intro db tid code u v hf hv htid hne
  set f : User → User :=
    fun w => { w with telegramId := some tid, telegramLinkCode := none } with hfdef
  have humem : u ∈ db.users := List.mem_of_find?_eq_some hf
  have hfu : f u ∈ updateUser db.users u.id f := mem_updateUser_self humem
  have hvmem : v ∈ updateUser db.users u.id f := mem_updateUser_other hv hne
  have hvne : v ≠ f u := fun h => hne (by rw [h, hfdef])
  have h2 : 2 ≤ (updateUser db.users u.id f).countP
      (fun w => w.telegramId == some tid) :=
    two_le_countP_of_mem hvmem hfu hvne (by simp [htid]) (by simp [hfdef])
  have hbad : usersUniqueOk (updateUser db.users u.id f) = false := by
    cases hn : nodupBool ((updateUser db.users u.id f).filterMap
        (fun w => w.telegramId)) with
    | false => simp [usersUniqueOk, hn]
    | true =>
      have hnd := (nodupBool_iff _).mp hn
      have h1 := countP_le_one_of_column_nodup hnd tid
      omega
  simp only [link_telegram, hf]
  rw [← hfdef, if_neg (by simp [hbad])]

theorem rebind_hits_unique_constraint_witness :
    linkDB.users.find? (fun w => w.telegramLinkCode == some "A7X9K2") =
      some pendingUser ∧
    boundUser ∈ linkDB.users ∧ boundUser.telegramId = some "tg-1" ∧
    boundUser.id ≠ pendingUser.id ∧
    link_telegram linkDB "tg-1" "A7X9K2" = .error .integrityError := by
  refine ⟨rfl, by decide, rfl, by decide, ?_⟩
  exact rebind_hits_unique_constraint linkDB "tg-1" "A7X9K2" pendingUser boundUser
    rfl (by decide) rfl (by decide)

/-! ## Summary lemmas -/

lemma find?_reverse_eq_of_countP_le_one {α : Type} {p : α → Bool} {l : List α}
    (h : l.countP p ≤ 1) : l.reverse.find? p = l.find? p := by
  cases hf : l.find? p with
  | none =>
    have hnone := List.find?_eq_none.mp hf
    exact List.find?_eq_none.mpr (fun x hx => hnone x (List.mem_reverse.mp hx))
  | some a =>
    have ha : a ∈ l := List.mem_of_find?_eq_some hf
    have hpa := List.find?_some hf
    have hsome : (l.reverse.find? p).isSome :=
      List.find?_isSome.mpr ⟨a, List.mem_reverse.mpr ha, hpa⟩
    obtain ⟨b, hb⟩ := Option.isSome_iff_exists.mp hsome
    have hbmem : b ∈ l := List.mem_reverse.mp (List.mem_of_find?_eq_some hb)
    have hpb := List.find?_some hb
    rw [hb, eq_of_countP_le_one h hbmem hpb ha hpa]

/-- Under at most one record per habit, the dict's last-wins lookup agrees
with "some record for this habit is completed". -/
lemma logsMapGet_eq_any {logs : List HabitLog} {hid : Nat}
    (h : logs.countP (fun l => l.habitId == hid) ≤ 1) :
    logsMapGet logs hid = logs.any (fun l => l.habitId == hid && l.completed) := by
  rw [logsMapGet, find?_reverse_eq_of_countP_le_one h]
  cases hf : logs.find? (fun l => l.habitId == hid) with
  | none =>
    have hnone := List.find?_eq_none.mp hf
    cases hany : logs.any (fun l => l.habitId == hid && l.completed) with
    | false => rfl
    | true =>
      obtain ⟨x, hx, hpx⟩ := List.any_eq_true.mp hany
      rw [Bool.and_eq_true] at hpx
      exact absurd hpx.1 (hnone x hx)
  | some a =>
    have ha : a ∈ logs := List.mem_of_find?_eq_some hf
    have hpa := List.find?_some hf
    cases hc : a.completed with
    | true =>
      have : logs.any (fun l => l.habitId == hid && l.completed) = true :=
        List.any_eq_true.mpr ⟨a, ha, by rw [Bool.and_eq_true]; exact ⟨hpa, hc⟩⟩
      rw [this]
      exact hc
    | false =>
      cases hany : logs.any (fun l => l.habitId == hid && l.completed) with
      | false => exact hc
      | true =>
        obtain ⟨x, hx, hpx⟩ := List.any_eq_true.mp hany
        rw [Bool.and_eq_true] at hpx
        have hxa : x = a := eq_of_countP_le_one h hx hpx.1 ha hpa
        rw [hxa, hc] at hpx
        cases hpx.2

/-- The per-triple ledger invariant bounds the day's records per habit. -/
lemma dayLogs_countP_le_one {db : DB} {uid d : Nat} (hinv : AtMostOnePerTriple db.logs)
    (hid : Nat) :
    (dayLogs db uid d).countP (fun l => l.habitId == hid) ≤ 1 := by
  rw [dayLogs, List.countP_filter]
  have hb := hinv uid hid d
  rw [countTriple] at hb
  refine le_trans (le_of_eq (List.countP_congr ?_)) hb
  intro l _
  simp [tripleMatch]
  tauto

lemma nodup_map_key {α : Type} (key : α → Nat) {l : List α}
    (h : ∀ n, l.countP (fun x => key x == n) ≤ 1) :
    (l.map key).Nodup := by
  induction l with
  | nil => simp
  | cons x xs ih =>
    simp only [List.map_cons, List.nodup_cons]
    constructor
    · intro hmem
      obtain ⟨y, hy, hye⟩ := List.mem_map.mp hmem
      have hb := h (key x)
      rw [List.countP_cons] at hb
      have h1 : 0 < xs.countP (fun z => key z == key x) :=
        List.countP_pos_iff.mpr ⟨y, hy, by simp [hye]⟩
      rw [if_pos (by simp)] at hb
      omega
    · refine ih (fun n => ?_)
      have hb := h n
      rw [List.countP_cons] at hb
      omega

/-- Counting, over a duplicate-free id list, the ids hit by a
duplicate-free-keyed record list contained in it, yields the record count. -/
lemma countP_key_eq_length {α : Type} (key : α → Nat) {ids : List Nat} {recs : List α}
    (hA : ids.Nodup) (hT : (recs.map key).Nodup)
    (hsub : ∀ t ∈ recs, key t ∈ ids) :
    ids.countP (fun n => recs.any (fun t => key t == n)) = recs.length := by
  rw [List.countP_eq_length_filter]
  have hperm : (ids.filter (fun n => recs.any (fun t => key t == n))).Perm
      (recs.map key) := by
    apply (List.perm_ext_iff_of_nodup (hA.filter _) hT).mpr
    intro a
    rw [List.mem_filter]
    constructor
    · rintro ⟨_, hany⟩
      obtain ⟨t, ht, hte⟩ := List.any_eq_true.mp hany
      have hk : key t = a := by simpa using hte
      exact hk ▸ List.mem_map.mpr ⟨t, ht, rfl⟩
    · intro ha
      obtain ⟨t, ht, hte⟩ := List.mem_map.mp ha
      exact ⟨hte ▸ hsub t ht, List.any_eq_true.mpr ⟨t, ht, by simp [hte]⟩⟩
  rw [hperm.length_eq, List.length_map]

/-- When the ledger invariant holds, the bot-surface completed count is
exactly the spec's "active habits having a completed same-day record". -/
lemma telegram_completed_eq_spec {db : DB} {user : User} {d : Nat}
    (hinv : AtMostOnePerTriple db.logs) :
    (telegramSummaryFor db user d).completed = specDayCompleted db user.id d := by
  rw [telegramSummaryFor, specDayCompleted]
  simp only
  rw [List.filter_congr (fun h _ => logsMapGet_eq_any (dayLogs_countP_le_one hinv h.id))]

lemma telegram_detail_eq_spec {db : DB} {user : User} {d : Nat}
    (hinv : AtMostOnePerTriple db.logs) :
    (telegramSummaryFor db user d).habits_detail =
      (activeHabits db user.id).map (fun h => (h.name,
        (dayLogs db user.id d).any (fun l => l.habitId == h.id && l.completed))) := by
  rw [telegramSummaryFor]
  simp only
  exact List.map_congr_left
    (fun h _ => by rw [logsMapGet_eq_any (dayLogs_countP_le_one hinv h.id)])

/-- When additionally every one of the day's records belongs to one of the
owner's active habits (and habit primary keys are unique), the primary
surface's raw count of completed records coincides with the spec count. -/
lemma primary_completed_eq_spec {db : DB} {user : User} {d : Nat}
    (hinv : AtMostOnePerTriple db.logs)
    (hids : (db.habits.map Habit.id).Nodup)
    (hown : ∀ l ∈ dayLogs db user.id d, ∃ h ∈ activeHabits db user.id, h.id = l.habitId) :
    specDayCompleted db user.id d =
      ((dayLogs db user.id d).filter (fun l => l.completed)).length := by
  set T := (dayLogs db user.id d).filter (fun l => l.completed) with hTdef
  have hstep : ∀ h : Habit,
      ((dayLogs db user.id d).any (fun l => l.habitId == h.id && l.completed)) =
        T.any (fun l => l.habitId == h.id) := by
    intro h
    rw [hTdef, List.any_filter]
    apply congrArg
    funext l
    rw [Bool.and_comm]
  have hAids : ((activeHabits db user.id).map Habit.id).Nodup :=
    ((List.filter_sublist db.habits).map Habit.id).nodup hids
  have hTle : ∀ n, T.countP (fun l => l.habitId == n) ≤ 1 := by
    intro n
    rw [hTdef, List.countP_filter]
    refine le_trans (List.countP_mono_left (fun x _ hx => ?_))
      (dayLogs_countP_le_one hinv n)
    rw [Bool.and_eq_true] at hx
    exact hx.1
  have hTids : (T.map (fun l => l.habitId)).Nodup := nodup_map_key _ hTle
  have hsub : ∀ t ∈ T, t.habitId ∈ (activeHabits db user.id).map Habit.id := by
    intro t ht
    have htday : t ∈ dayLogs db user.id d := (List.mem_filter.mp ht).1
    obtain ⟨h, hh, hhe⟩ := hown t htday
    exact hhe ▸ List.mem_map.mpr ⟨h, hh, rfl⟩
  rw [specDayCompleted, ← List.countP_eq_length_filter,
    List.countP_congr (fun h _ => by rw [hstep h])]
  have := countP_key_eq_length (fun l : HabitLog => l.habitId) hAids hTids hsub
  rw [← this, List.countP_map]
  rfl

/-- One active and one soft-deleted habit, with a completed record for the
soft-deleted one: the two surfaces then disagree. -/
def mixedDB : DB :=
  { users := [wUser], habits := [wHabit, wHabitDeleted],
    logs := [⟨1, 1, 2, 5, true⟩], nextUserId := 2, nextLogId := 2 }

/-- Three active habits, two of them completed on day 5. -/
def exDB3 : DB :=
  { users := [wUser],
    habits := [wHabit,
      { id := 2, userId := 1, name := "Meditar", icon := "🧘", active := true },
      { id := 3, userId := 1, name := "Ejercicio", icon := "💪", active := true }],
    logs := [⟨1, 1, 1, 5, true⟩, ⟨2, 1, 2, 5, true⟩],
    nextUserId := 2, nextLogId := 3 }

lemma atMostOne_pair {l1 l2 : HabitLog} (hne : l1.habitId ≠ l2.habitId) :
    AtMostOnePerTriple [l1, l2] := by
  intro u h d
  rw [countTriple, List.countP_cons, List.countP_cons, List.countP_nil]
  by_cases h1 : tripleMatch l1 u h d
  · by_cases h2 : tripleMatch l2 u h d
    · exfalso
      simp only [tripleMatch, Bool.and_eq_true, beq_iff_eq] at h1 h2
      exact hne (h1.1.2.trans h2.1.2.symm)
    · simp [h1, h2]
  · by_cases h2 : tripleMatch l2 u h d
    · simp [h1, h2]
    · simp [h1, h2]

/-- C2 (as written, refuted): with one active habit, no record for it, and a
completed same-day record for a soft-deleted habit, the primary surface's
`daySummary` reports `completed = 1` while the spec's count of active habits
with a completed same-day record is `0` (and its detail omits the active
habit). -/
theorem daySummary_spec_counterexample :
    (get_day_summary mixedDB wUser 5).completed = 1 ∧
    specDayCompleted mixedDB wUser.id 5 = 0 ∧
    (get_day_summary mixedDB wUser 5).completed ≠ specDayCompleted mixedDB wUser.id 5 :=
  ⟨rfl, rfl, by decide⟩

/-- C2 (amended): the bot surface's summary satisfies every clause of the
claim whenever the ledger invariant holds; the primary surface returns the
claimed `total` and percentage formula but computes `completed` as the count
of ALL of the day's completed records (matching the claim's count only when
every same-day record belongs to an active habit and keys are unique) and
returns the day's raw records as detail; on 3 active habits with 2 completed
same-day records both surfaces return total 3, completed 2, 66.7 %. -/
theorem daySummary_aggregation :
    (∀ db user d, AtMostOnePerTriple db.logs →
      (telegramSummaryFor db user d).total_habits = (activeHabits db user.id).length ∧
      (telegramSummaryFor db user d).completed = specDayCompleted db user.id d ∧
      (telegramSummaryFor db user d).percentage =
        percentageTenths (specDayCompleted db user.id d)
          (activeHabits db user.id).length ∧
      (telegramSummaryFor db user d).habits_detail =
        (activeHabits db user.id).map (fun h => (h.name,
          (dayLogs db user.id d).any (fun l => l.habitId == h.id && l.completed)))) ∧
    (∀ db user d,
      (get_day_summary db user d).total_habits = (activeHabits db user.id).length ∧
      (get_day_summary db user d).habits = dayLogs db user.id d ∧
      (get_day_summary db user d).completed =
        ((dayLogs db user.id d).filter (fun l => l.completed)).length ∧
      (AtMostOnePerTriple db.logs → (db.habits.map Habit.id).Nodup →
        (∀ l ∈ dayLogs db user.id d,
          ∃ h ∈ activeHabits db user.id, h.id = l.habitId) →
        (get_day_summary db user d).completed = specDayCompleted db user.id d ∧
        (get_day_summary db user d).percentage =
          percentageTenths (specDayCompleted db user.id d)
            (activeHabits db user.id).length)) ∧
    ((get_day_summary exDB3 wUser 5).total_habits = 3 ∧
     (get_day_summary exDB3 wUser 5).completed = 2 ∧
     (get_day_summary exDB3 wUser 5).percentage = 667) ∧
    (get_telegram_summary exDB3 "tel-77" 5 = .ok (telegramSummaryFor exDB3 wUser 5) ∧
     (telegramSummaryFor exDB3 wUser 5).total_habits = 3 ∧
     (telegramSummaryFor exDB3 wUser 5).completed = 2 ∧
     (telegramSummaryFor exDB3 wUser 5).percentage = 667) := by
  refine ⟨?_, ?_, ⟨rfl, rfl, by decide⟩, ⟨rfl, rfl, rfl, by decide⟩⟩
  · intro db user d hinv
    refine ⟨rfl, telegram_completed_eq_spec hinv, ?_, telegram_detail_eq_spec hinv⟩
    show percentageTenths (telegramSummaryFor db user d).completed
      (activeHabits db user.id).length = _
    rw [telegram_completed_eq_spec hinv]
  · intro db user d
    refine ⟨rfl, rfl, rfl, ?_⟩
    intro hinv hids hown
    have hc := primary_completed_eq_spec hinv hids hown
    refine ⟨hc.symm, ?_⟩
    show percentageTenths (get_day_summary db user d).completed
      (activeHabits db user.id).length = _
    have : (get_day_summary db user d).completed =
        ((dayLogs db user.id d).filter (fun l => l.completed)).length := rfl
    rw [this, ← hc]

theorem daySummary_aggregation_witness :
    AtMostOnePerTriple mixedDB.logs ∧
    (telegramSummaryFor mixedDB wUser 5).completed = specDayCompleted mixedDB wUser.id 5 := by
  have hinv : AtMostOnePerTriple mixedDB.logs := fun u h d => List.countP_le_length _
  exact ⟨hinv, (daySummary_aggregation.1 mixedDB wUser 5 hinv).2.1⟩

/-- C3 (as written, refuted): for the account bound to chat id "tel-77",
resolved identically by the bearer path and the secondary-identity path, the
primary surface reports `completed = 1` on day 5 while the bot surface
reports `completed = 0` — the two surfaces do not observe identical data. -/
theorem cross_surface_summary_counterexample :
    get_current_user mixedDB (create_token 1 0) 0 = .ok wUser ∧
    getUserByTelegram mixedDB "tel-77" = .ok wUser ∧
    get_telegram_summary mixedDB "tel-77" 5 = .ok (telegramSummaryFor mixedDB wUser 5) ∧
    (get_day_summary mixedDB wUser 5).completed = 1 ∧
    (telegramSummaryFor mixedDB wUser 5).completed = 0 :=
  ⟨rfl, rfl, rfl, rfl, rfl⟩

/-- C3 (amended): for an account bound to a secondary identity, the two
surfaces always agree on the date and on the total of active habits; and
when the ledger invariant holds, habit keys are unique, and every same-day
record belongs to an active habit, they also agree on the completed count
and percentage, with the bot detail determined by the primary surface's
record list.  (In general — records of soft-deleted habits — they diverge,
see the counterexample.) -/
theorem cross_surface_summary_equiv :
    ∀ db tid user d, getUserByTelegram db tid = .ok user →
      get_telegram_summary db tid d = .ok (telegramSummaryFor db user d) ∧
      (telegramSummaryFor db user d).date = (get_day_summary db user d).date ∧
      (telegramSummaryFor db user d).total_habits =
        (get_day_summary db user d).total_habits ∧
      (AtMostOnePerTriple db.logs → (db.habits.map Habit.id).Nodup →
        (∀ l ∈ dayLogs db user.id d,
          ∃ h ∈ activeHabits db user.id, h.id = l.habitId) →
        (telegramSummaryFor db user d).completed = (get_day_summary db user d).completed ∧
        (telegramSummaryFor db user d).percentage =
          (get_day_summary db user d).percentage ∧
        (telegramSummaryFor db user d).habits_detail =
          (activeHabits db user.id).map (fun h => (h.name,
            (get_day_summary db user d).habits.any
              (fun l => l.habitId == h.id && l.completed)))) := by
  intro db tid user d hu
  refine ⟨by rw [get_telegram_summary, hu], rfl, rfl, ?_⟩
  intro hinv hids hown
  have hc : (telegramSummaryFor db user d).completed =
      (get_day_summary db user d).completed := by
    rw [telegram_completed_eq_spec hinv, primary_completed_eq_spec hinv hids hown]
    rfl
  refine ⟨hc, ?_, telegram_detail_eq_spec hinv⟩
  show percentageTenths (telegramSummaryFor db user d).completed
    (activeHabits db user.id).length =
    percentageTenths (get_day_summary db user d).completed
      (activeHabits db user.id).length
  rw [hc]

theorem cross_surface_summary_equiv_witness :
    getUserByTelegram exDB3 "tel-77" = .ok wUser ∧
    AtMostOnePerTriple exDB3.logs ∧
    (exDB3.habits.map Habit.id).Nodup ∧
    (∀ l ∈ dayLogs exDB3 wUser.id 5, ∃ h ∈ activeHabits exDB3 wUser.id, h.id = l.habitId) ∧
    (telegramSummaryFor exDB3 wUser 5).completed = (get_day_summary exDB3 wUser 5).completed := by
  have hu : getUserByTelegram exDB3 "tel-77" = .ok wUser := rfl
  have hinv : AtMostOnePerTriple exDB3.logs := atMostOne_pair (by decide)
  have hids : (exDB3.habits.map Habit.id).Nodup := by decide
  have hown : ∀ l ∈ dayLogs exDB3 wUser.id 5,
      ∃ h ∈ activeHabits exDB3 wUser.id, h.id = l.habitId := by decide
  exact ⟨hu, hinv, hids, hown,
    ((cross_surface_summary_equiv exDB3 "tel-77" wUser 5 hu).2.2.2 hinv hids hown).1⟩

end NexoTime
